import Mathlib

/-!
# Verification of `filesystem-frontmatter-mcp`

A shallow embedding of the core of the `filesystem-frontmatter-mcp`
repository (`parser.py`, `query.py`, `server.py`) together with proofs of
the specification's claims about it.

Modelling conventions:

* Python / YAML values are embedded as the inductive type `Value`.
  Floating-point payloads are kept opaque (a string holding their textual
  form), since no claim computes with them.
* A Python `dict` is embedded as an association list `List (String × Value)`
  in insertion order; lookup takes the first binding, which coincides with
  dict semantics because a dict's keys are distinct.
* External collaborators (the frontmatter loader, Python's builtin `str`,
  and the DuckDB engine) are abstract parameters, universally quantified
  in the theorems.
* A `Path` is its list of components; `pathlib.Path.relative_to` is
  `relative_to` below, returning `none` exactly when Python raises
  `ValueError` (the base is not an ancestor).
* Python exceptions are `Except String`; a raised exception that escapes a
  function is an `Except.error` result.
-/

/-- Embedding of the Python/YAML values frontmatter can produce:
null, bool, int, float, `datetime.date`, `datetime.datetime`, list,
string, and opaque structured values (dicts). The float payload is its
textual form, kept opaque. -/
inductive Value where
  | vnull : Value
  | vbool : Bool → Value
  | vint : Int → Value
  | vfloat : String → Value
  | vdate : Nat → Nat → Nat → Value
  | vdatetime : Nat → Nat → Nat → Nat → Nat → Nat → Value
  | vlist : List Value → Value
  | vstr : String → Value
  | vdict : List (String × Value) → Value

/-- `value is None` in Python. -/
def Value.isNull : Value → Bool
  | .vnull => true
  | _ => false

/-- `isinstance(value, str)` in Python. -/
def Value.isStr : Value → Bool
  | .vstr _ => true
  | _ => false

/-- A parsed record: the items of the Python dict, in insertion order. -/
abbrev Record := List (String × Value)

/-- Dict lookup on an association list: the first binding of the key. -/
def lookupVal (r : List (String × Value)) (k : String) : Option Value :=
  (r.find? (fun p => p.1 == k)).map (fun p => p.2)

/-- `infer_type` from `parser.py`: classify a value, DuckDB style.
The `isinstance` cascade of the source maps onto disjoint constructors
(`bool` before `int`, `date and not datetime` before `datetime`); the
list case keeps the source's truthiness test `if value and all(...)`,
which demands a *non-empty* list of strings. -/
def infer_type : Value → String
  | .vnull => "null"
  | .vbool _ => "boolean"
  | .vint _ => "integer"
  | .vfloat _ => "double"
  | .vdate _ _ _ => "date"
  | .vdatetime _ _ _ _ _ _ => "timestamp"
  | .vlist l => if !l.isEmpty && l.all Value.isStr then "array<string>" else "array"
  | .vstr _ => "string"
  | .vdict _ => "json"

/-- One entry of the inferred schema: the dict
`{"type": ..., "count": ..., "nullable": ..., "sample_values": ...}`
built by `infer_schema` in `parser.py`. -/
structure SchemaEntry where
  type : String
  count : Nat
  nullable : Bool
  sample_values : List Value

/-- Append `v` to the value list of key `k` in the ordered dict
`property_values`, creating the key at the end if absent — the effect of
`property_values[key].append(value)` (with the preceding
`if key not in property_values: property_values[key] = []`). -/
def addItem (pv : List (String × List Value)) (k : String) (v : Value) :
    List (String × List Value) :=
  match pv with
  | [] => [(k, [v])]
  | (k', vs) :: rest =>
      if k' == k then (k', vs ++ [v]) :: rest else (k', vs) :: addItem rest k v

/-- The `property_values` dict of `infer_schema`: iterate the records in
order, and within each record its items in order, skipping the reserved
key `"path"`, accumulating each property's values. -/
def buildPV (records : List Record) : List (String × List Value) :=
  records.foldl
    (fun pv r =>
      r.foldl (fun pv kv => if kv.1 == "path" then pv else addItem pv kv.1 kv.2) pv)
    []

/-- One iteration of the sample-collection loop of `infer_schema`:
state is `(seen, samples)`; a value is kept when its textual form is new
and the cap is not yet reached. `strFn` is Python's builtin `str`. -/
def sampleStep (strFn : Value → String) (max_samples : Nat)
    (st : List String × List Value) (v : Value) : List String × List Value :=
  let key := strFn v
  if !st.1.contains key && st.2.length < max_samples then
    (key :: st.1, st.2 ++ [v])
  else st

/-- The `samples` list computed by `infer_schema` for a property's
non-null values. -/
def collectSamples (strFn : Value → String) (max_samples : Nat)
    (non_null_values : List Value) : List Value :=
  (non_null_values.foldl (sampleStep strFn max_samples) ([], [])).2

/-- The body of the `for prop, values in property_values.items()` loop of
`infer_schema`: build the schema entry of one property from its collected
values. -/
def inferEntry (strFn : Value → String) (total_files max_samples : Nat)
    (values : List Value) : SchemaEntry :=
  let non_null_values := values.filter (fun v => !v.isNull)
  let count := non_null_values.length
  let inferred_type :=
    match non_null_values with
    | [] => "null"
    | v :: _ => infer_type v
  { type := inferred_type
    count := count
    nullable := decide (count < total_files)
    sample_values := collectSamples strFn max_samples non_null_values }

/-- `infer_schema` from `parser.py`, as the association list of
`(property, entry)` pairs in the order the properties were first seen.
`strFn` abstracts Python's builtin `str`; the source's default for
`max_samples` is `5`. -/
def infer_schema (strFn : Value → String) (records : List Record)
    (max_samples : Nat) : List (String × SchemaEntry) :=
  let property_values := buildPV records
  let total_files := records.length
  property_values.map (fun p => (p.1, inferEntry strFn total_files max_samples p.2))

/-- Schema lookup (dict access on the returned schema). -/
def lookupEntry (schema : List (String × SchemaEntry)) (k : String) :
    Option SchemaEntry :=
  (schema.find? (fun p => p.1 == k)).map (fun p => p.2)

/-- The sequence of values property `prop` takes across the batch, in
record order; a record lacking the key contributes no entry. This is the
reference stream the claims speak about. -/
def propStream (records : List Record) (prop : String) : List Value :=
  records.filterMap (fun r => lookupVal r prop)

/-- The non-null occurrences of `prop` across the batch, in record order. -/
def nonNullStream (records : List Record) (prop : String) : List Value :=
  (propStream records prop).filter (fun v => !v.isNull)

/-- Lookup in the `property_values` ordered dict. -/
def lookupPV (pv : List (String × List Value)) (k : String) :
    Option (List Value) :=
  (pv.find? (fun p => p.1 == k)).map (fun p => p.2)

/-- One item-step of the `property_values` accumulation: skip the
reserved key, otherwise append to the key's list. -/
def pvStep (pv : List (String × List Value)) (kv : String × Value) :
    List (String × List Value) :=
  if kv.1 == "path" then pv else addItem pv kv.1 kv.2

/-- Combine an already-accumulated optional value list with newly
collected values: `none` stands for "key not yet present". -/
def optApp (o : Option (List Value)) (vs : List Value) : Option (List Value) :=
  match o, vs with
  | none, [] => none
  | none, vs => some vs
  | some vs0, vs => some (vs0 ++ vs)

/-- The values contributed to key `k` by the items of one record. -/
def itemVals (items : List (String × Value)) (k : String) : List Value :=
  (items.filter (fun p => p.1 == k)).map (fun p => p.2)

/-- The values contributed to key `k` by a whole batch, record by record. -/
def flatVals : List Record → String → List Value
  | [], _ => []
  | r :: rs, k => itemVals r k ++ flatVals rs k

/-- The records of a batch are Python dicts, so each record's keys are
distinct. -/
def KeysNodup (records : List Record) : Prop :=
  ∀ r ∈ records, (r.map Prod.fst).Nodup

/-- First occurrence of each distinct textual representation, in order,
given the set of representations already seen: the reference description
of the sample-collection loop before the cap is applied. -/
def firstDistinct (strFn : Value → String) : List String → List Value → List Value
  | _, [] => []
  | seen, v :: vs =>
      if seen.contains (strFn v) then firstDistinct strFn seen vs
      else v :: firstDistinct strFn (strFn v :: seen) vs

/-- A filesystem path, as its list of components. -/
abbrev FsPath := List String

/-- `pathlib.Path.relative_to`: the remainder of `path` past `base`, or
`none` when `base` is not an ancestor — the case in which Python raises
`ValueError`. -/
def relative_to (path base : FsPath) : Option FsPath :=
  if base.isPrefixOf path then some (path.drop base.length) else none

/-- `str()` of a relative path: its components joined by `/`. -/
def pathStr (p : FsPath) : String :=
  String.intercalate "/" p

/-- The message of the `ValueError` raised by `relative_to`. -/
def subpathErr : String :=
  "ValueError: path is not in the subpath of base_dir"

/-- `d[k] = v` on a dict: replace the binding if the key exists, append
it otherwise. -/
def dictSet (d : List (String × Value)) (k : String) (v : Value) :
    List (String × Value) :=
  if d.any (fun p => p.1 == k) then
    d.map (fun p => if p.1 == k then (p.1, v) else p)
  else d ++ [(k, v)]

/-- `d.update(upd)` on dicts: set every binding of `upd` in order. -/
def dictUpdate (d upd : List (String × Value)) : List (String × Value) :=
  upd.foldl (fun d kv => dictSet d kv.1 kv.2) d

/-- `parse_file` from `parser.py`. `load` abstracts `frontmatter.load`
(returning the metadata dict, or the exception it raises). The source
loads first, then computes the relative path — which raises `ValueError`
when `base_dir` is not an ancestor — then updates
`{"path": str(path.relative_to(base_dir))}` with the metadata. -/
def parse_file (load : FsPath → Except String Record)
    (path base_dir : FsPath) : Except String Record := do
  let post ← load path
  match relative_to path base_dir with
  | none => Except.error subpathErr
  | some rel => Except.ok (dictUpdate [("path", Value.vstr (pathStr rel))] post)

/-- A failure report of the Batch Parser:
`{"path": ..., "error": ...}`. -/
structure FailureReport where
  path : String
  error : String

/-- The loop of `parse_files`: on success append the record, on failure
append a report — whose construction itself evaluates
`path.relative_to(base_dir)` and therefore re-raises `ValueError` when
the base is not an ancestor, escaping the whole call. -/
def parse_files_go (load : FsPath → Except String Record) (base_dir : FsPath) :
    List FsPath → List Record → List FailureReport →
    Except String (List Record × List FailureReport)
  | [], records, warnings => Except.ok (records, warnings)
  | path :: rest, records, warnings =>
    match parse_file load path base_dir with
    | Except.ok record =>
        parse_files_go load base_dir rest (records ++ [record]) warnings
    | Except.error e =>
        match relative_to path base_dir with
        | none => Except.error subpathErr
        | some rel =>
            parse_files_go load base_dir rest records
              (warnings ++ [⟨pathStr rel, e⟩])

/-- `parse_files` from `parser.py`. -/
def parse_files (load : FsPath → Except String Record)
    (paths : List FsPath) (base_dir : FsPath) :
    Except String (List Record × List FailureReport) :=
  parse_files_go load base_dir paths [] []

/-- The failure report `parse_files` emits for one path, when any. -/
def reportFor (load : FsPath → Except String Record)
    (base_dir path : FsPath) : Option FailureReport :=
  match parse_file load path base_dir, relative_to path base_dir with
  | Except.error e, some rel => some ⟨pathStr rel, e⟩
  | _, _ => none

/-- The concatenation of all records' key lists, in batch order. -/
def keysUnion : List Record → List String
  | [] => []
  | r :: rs => r.map Prod.fst ++ keysUnion rs

/-- `all_keys` of `execute_query`: the set of keys appearing in any
record of the batch (a Python `set`; we keep first occurrences — the
claims do not depend on the order). -/
def allKeys (records : List Record) : List String :=
  (keysUnion records).dedup

/-- `record.get(key)`: the record's value, or Python `None` when the key
is absent. -/
def getOrNull (r : Record) (k : String) : Value :=
  (lookupVal r k).getD Value.vnull

/-- One pass of the column-filling loop of `execute_query`: append
`record.get(key)` to every column. -/
def columnsStep (cols : List (String × List Value)) (r : Record) :
    List (String × List Value) :=
  cols.map (fun p => (p.1, p.2 ++ [getOrNull r p.1]))

/-- `columns_data` of `execute_query`: start from
`{key: [] for key in all_keys}` and fill record by record. -/
def columns_data (records : List Record) : List (String × List Value) :=
  records.foldl columnsStep ((allKeys records).map (fun k => (k, [])))

/-- The query result dict of `execute_query`:
`{"results": ..., "row_count": ..., "columns": ...}`; each result row is
the dict `dict(zip(columns, row))`. -/
structure QueryResult where
  results : List (List (String × Value))
  row_count : Nat
  columns : List String

/-- The underlying relational engine (DuckDB), abstracted: given the
registered table and the SQL text it returns the result description
(column names) and the fetched rows, or raises (`QueryError`). -/
abbrev Engine :=
  List (String × List Value) → String → Except String (List String × List (List Value))

/-- `execute_query` from `query.py`: the empty batch short-circuits to
the degenerate result; otherwise the columnar table is built, handed to
the engine, and the rows are zipped with the column names
(`strict=True`: a length mismatch raises). -/
def execute_query (engine : Engine) (records : List Record) (sql : String) :
    Except String QueryResult :=
  if records.isEmpty then
    Except.ok ⟨[], 0, []⟩
  else do
    let table := columns_data records
    let (columns, rows) ← engine table sql
    if rows.all (fun row => row.length == columns.length) then
      let results := rows.map (fun row => columns.zip row)
      Except.ok ⟨results, results.length, columns⟩
    else Except.error "zip() argument lengths differ"

/-- The JSON object answered by the `inspect_frontmatter` tool:
`{"file_count": ..., "schema": ...}` plus `warnings` only when present. -/
structure InspectResponse where
  file_count : Nat
  schema : List (String × SchemaEntry)
  warnings : Option (List FailureReport)

/-- The JSON object answered by the `query_frontmatter` tool. -/
structure QueryResponse where
  results : List (List (String × Value))
  row_count : Nat
  columns : List String
  warnings : Option (List FailureReport)

/-- The `inspect_frontmatter` branch of `call_tool` in `server.py`,
after glob expansion: parse the files, infer the schema (default cap 5),
and attach `warnings` only when the warning list is truthy (non-empty). -/
def inspect_tool (strFn : Value → String)
    (load : FsPath → Except String Record) (paths : List FsPath)
    (base_dir : FsPath) : Except String InspectResponse :=
  match parse_files load paths base_dir with
  | Except.error e => Except.error e
  | Except.ok (records, warnings) =>
      Except.ok
        { file_count := records.length
          schema := infer_schema strFn records 5
          warnings := if warnings.isEmpty then none else some warnings }

/-- The `query_frontmatter` branch of `call_tool` in `server.py`, after
glob expansion: parse the files, execute the query, and attach
`warnings` only when the warning list is truthy (non-empty). -/
def query_tool (engine : Engine) (load : FsPath → Except String Record)
    (paths : List FsPath) (base_dir : FsPath) (sql : String) :
    Except String QueryResponse :=
  match parse_files load paths base_dir with
  | Except.error e => Except.error e
  | Except.ok (records, warnings) =>
      match execute_query engine records sql with
      | Except.error e => Except.error e
      | Except.ok qr =>
          Except.ok
            { results := qr.results
              row_count := qr.row_count
              columns := qr.columns
              warnings := if warnings.isEmpty then none else some warnings }

theorem buildPV_eq_foldl (records : List Record) :
    buildPV records = records.foldl (fun pv r => r.foldl pvStep pv) [] := rfl

theorem optApp_nil (o : Option (List Value)) : optApp o [] = o := by
  cases o <;> simp [optApp]

theorem optApp_append (o : Option (List Value)) (a b : List Value) :
    optApp (optApp o a) b = optApp o (a ++ b) := by
  cases o with
  | none =>
      cases a with
      | nil => simp [optApp]
      | cons x xs =>
          cases b <;> simp [optApp]
  | some vs0 =>
      cases b <;> simp [optApp]

theorem optApp_push (o : Option (List Value)) (v : Value) (vs : List Value) :
    optApp (some (o.getD [] ++ [v])) vs = optApp o (v :: vs) := by
  cases o <;> cases vs <;> simp [optApp]

theorem lookupPV_addItem_self (pv : List (String × List Value)) (k : String)
    (v : Value) :
    lookupPV (addItem pv k v) k = some ((lookupPV pv k).getD [] ++ [v]) := by
  induction pv with
  | nil => simp [addItem, lookupPV]
  | cons p rest ih =>
      obtain ⟨k', vs⟩ := p
      by_cases h : k' = k
      · subst h
        simp [addItem, lookupPV]
      · have hb : (k' == k) = false := by simpa using h
        simp [addItem, hb, lookupPV, List.find?] at ih ⊢
        exact ih

theorem lookupPV_addItem_other (pv : List (String × List Value))
    (k k' : String) (v : Value) (h : k' ≠ k) :
    lookupPV (addItem pv k v) k' = lookupPV pv k' := by
  induction pv with
  | nil =>
      have hb : (k == k') = false := by simpa using fun e => h e.symm
      simp [addItem, lookupPV, List.find?, hb]
  | cons p rest ih =>
      obtain ⟨k0, vs⟩ := p
      by_cases h0 : k0 = k
      · subst h0
        have hb' : (k0 == k') = false := by simpa using fun e => h e.symm
        simp [addItem, lookupPV, List.find?, hb']
      · have hb : (k0 == k) = false := by simpa using h0
        by_cases h1 : k0 = k'
        · subst h1
          simp [addItem, hb, lookupPV, List.find?]
        · have hb1 : (k0 == k') = false := by simpa using h1
          simp [addItem, hb, lookupPV, List.find?, hb1] at ih ⊢
          exact ih

theorem foldl_pvStep_lookup (k : String) (hk : k ≠ "path") :
    ∀ (items : List (String × Value)) (pv : List (String × List Value)),
      lookupPV (items.foldl pvStep pv) k = optApp (lookupPV pv k) (itemVals items k) := by
  intro items
  induction items with
  | nil => intro pv; simp [itemVals, optApp_nil]
  | cons kv rest ih =>
      intro pv
      obtain ⟨k1, v1⟩ := kv
      by_cases hp : k1 = "path"
      · have hb : (k1 == k) = false := by
          subst hp; simpa using fun e => hk e.symm
        have hbp : (k1 == "path") = true := by simp [hp]
        simp only [List.foldl_cons, pvStep, hbp, if_true]
        rw [ih pv]
        simp [itemVals, hb]
      · have hbp : (k1 == "path") = false := by simpa using hp
        simp only [List.foldl_cons, pvStep, hbp, Bool.false_eq_true, if_false]
        by_cases hk1 : k1 = k
        · subst hk1
          rw [ih (addItem pv k1 v1), lookupPV_addItem_self]
          have : itemVals ((k1, v1) :: rest) k1 = v1 :: itemVals rest k1 := by
            simp [itemVals]
          rw [this, optApp_push]
        · have hb : (k1 == k) = false := by simpa using hk1
          rw [ih (addItem pv k1 v1),
            lookupPV_addItem_other pv k1 k v1 (fun e => hk1 e.symm)]
          simp [itemVals, hb]

theorem buildPV_go_lookup (k : String) (hk : k ≠ "path") :
    ∀ (records : List Record) (pv : List (String × List Value)),
      lookupPV (records.foldl (fun pv r => r.foldl pvStep pv) pv) k =
        optApp (lookupPV pv k) (flatVals records k) := by
  intro records
  induction records with
  | nil => intro pv; simp [flatVals, optApp_nil]
  | cons r rs ih =>
      intro pv
      simp only [List.foldl_cons]
      rw [ih (r.foldl pvStep pv), foldl_pvStep_lookup k hk, flatVals,
        optApp_append]

theorem lookupPV_buildPV (records : List Record) (k : String) (hk : k ≠ "path") :
    lookupPV (buildPV records) k = optApp none (flatVals records k) := by
  rw [buildPV_eq_foldl, buildPV_go_lookup k hk]
  simp [lookupPV, List.find?]

theorem lookupPV_pvStep_path (pv : List (String × List Value))
    (kv : String × Value) :
    lookupPV (pvStep pv kv) "path" = lookupPV pv "path" := by
  unfold pvStep
  by_cases hp : kv.1 = "path"
  · simp [hp]
  · have hbp : (kv.1 == "path") = false := by simpa using hp
    simp only [hbp, Bool.false_eq_true, if_false]
    exact lookupPV_addItem_other pv kv.1 "path" kv.2 (fun e => hp e.symm)

theorem lookupPV_buildPV_path (records : List Record) :
    lookupPV (buildPV records) "path" = none := by
  rw [buildPV_eq_foldl]
  suffices h : ∀ (rs : List Record) (pv : List (String × List Value)),
      lookupPV (rs.foldl (fun pv r => r.foldl pvStep pv) pv) "path" =
        lookupPV pv "path" by
    rw [h records []]; simp [lookupPV, List.find?]
  intro rs
  induction rs with
  | nil => intro pv; simp
  | cons r rs ih =>
      intro pv
      simp only [List.foldl_cons]
      rw [ih]
      suffices h2 : ∀ (items : List (String × Value)) (pv : List (String × List Value)),
          lookupPV (items.foldl pvStep pv) "path" = lookupPV pv "path" by
        exact h2 r pv
      intro items
      induction items with
      | nil => intro pv; simp
      | cons kv rest ih2 =>
          intro pv
          simp only [List.foldl_cons]
          rw [ih2, lookupPV_pvStep_path]

theorem itemVals_eq_lookup (r : Record) (k : String)
    (h : (r.map Prod.fst).Nodup) :
    itemVals r k = (lookupVal r k).toList := by
  induction r with
  | nil => simp [itemVals, lookupVal]
  | cons kv rest ih =>
      obtain ⟨k1, v1⟩ := kv
      simp only [List.map_cons, List.nodup_cons] at h
      obtain ⟨hnotin, hnd⟩ := h
      by_cases hk1 : k1 = k
      · subst hk1
        have hfil : rest.filter (fun p => p.1 == k1) = [] := by
          rw [List.filter_eq_nil_iff]
          intro p hp
          simp only [beq_iff_eq]
          intro he
          exact hnotin (he ▸ List.mem_map_of_mem Prod.fst hp)
        simp [itemVals, lookupVal, List.find?, hfil]
      · have hb : (k1 == k) = false := by simpa using hk1
        simp only [itemVals, List.filter_cons, hb, Bool.false_eq_true, if_false,
          lookupVal, List.find?, Bool.cond_eq_if] at ih ⊢
        exact ih hnd

theorem flatVals_eq_propStream (records : List Record) (k : String)
    (h : KeysNodup records) :
    flatVals records k = propStream records k := by
  induction records with
  | nil => simp [flatVals, propStream]
  | cons r rs ih =>
      have hr : (r.map Prod.fst).Nodup := h r (List.mem_cons_self r rs)
      have hrs : KeysNodup rs := fun r' hr' => h r' (List.mem_cons_of_mem r hr')
      simp only [flatVals, propStream, List.filterMap_cons]
      rw [itemVals_eq_lookup r k hr]
      cases hv : lookupVal r k with
      | none => simpa [propStream] using ih hrs
      | some v => simpa [propStream] using congrArg (v :: ·) (ih hrs)

theorem lookupEntry_map_inferEntry (pv : List (String × List Value))
    (strFn : Value → String) (tf cap : Nat) (k : String) :
    lookupEntry (pv.map (fun p => (p.1, inferEntry strFn tf cap p.2))) k =
      (lookupPV pv k).map (inferEntry strFn tf cap) := by
  induction pv with
  | nil => simp [lookupEntry, lookupPV]
  | cons p rest ih =>
      obtain ⟨k0, vs⟩ := p
      by_cases h0 : k0 = k
      · subst h0
        simp [lookupEntry, lookupPV, List.find?]
      · have hb : (k0 == k) = false := by simpa using h0
        simp only [lookupEntry, lookupPV, List.map_cons, List.find?,
          hb, Bool.cond_eq_if, Bool.false_eq_true, if_false] at ih ⊢
        exact ih

/-- Central characterization of `infer_schema`: for a non-reserved key,
the schema has an entry iff the property occurs in some record, and the
entry is `inferEntry` applied to the property's value stream. -/
theorem lookupEntry_infer_schema (strFn : Value → String)
    (records : List Record) (cap : Nat) (k : String) (hk : k ≠ "path")
    (hwf : KeysNodup records) :
    lookupEntry (infer_schema strFn records cap) k =
      (optApp none (propStream records k)).map
        (inferEntry strFn records.length cap) := by
  unfold infer_schema
  rw [lookupEntry_map_inferEntry, lookupPV_buildPV records k hk,
    flatVals_eq_propStream records k hwf]

theorem optApp_none_eq (vs : List Value) :
    optApp none vs = if vs.isEmpty then none else some vs := by
  cases vs <;> simp [optApp]

theorem find?_eq_head_of_filter {α : Type} (p : α → Bool) (l : List α) :
    l.find? p = (l.filter p).head? := by
  induction l with
  | nil => rfl
  | cons a l ih =>
      cases h : p a with
      | true =>
          rw [List.find?_cons_of_pos _ h, List.filter_cons_of_pos h]
          rfl
      | false =>
          have h' : ¬ p a = true := by simp [h]
          rw [List.find?_cons_of_neg _ h', List.filter_cons_of_neg h', ih]

theorem infer_schema_path_none (strFn : Value → String)
    (records : List Record) (cap : Nat) :
    lookupEntry (infer_schema strFn records cap) "path" = none := by
  unfold infer_schema
  rw [lookupEntry_map_inferEntry, lookupPV_buildPV_path]
  rfl

theorem lookupEntry_some_elim (strFn : Value → String) (records : List Record)
    (cap : Nat) (k : String) (e : SchemaEntry) (hwf : KeysNodup records)
    (he : lookupEntry (infer_schema strFn records cap) k = some e) :
    e = inferEntry strFn records.length cap (propStream records k) := by
  by_cases hk : k = "path"
  · rw [hk, infer_schema_path_none] at he
    exact absurd he (by simp)
  · rw [lookupEntry_infer_schema strFn records cap k hk hwf,
      optApp_none_eq] at he
    by_cases hps : (propStream records k).isEmpty
    · rw [if_pos hps] at he
      exact absurd he (by simp)
    · rw [if_neg hps] at he
      simpa using he.symm

/-- C1: for every batch of records (each a dict, so with distinct keys)
and every property present in the inferred schema, the entry's `nullable`
flag is true iff the number of non-null occurrences of the property
across the batch (absent keys contributing no entry) is strictly less
than the number of records in the batch. -/
theorem nullable_iff_nonnull_lt_total (strFn : Value → String)
    (records : List Record) (cap : Nat) (prop : String) (e : SchemaEntry)
    (hwf : KeysNodup records)
    (he : lookupEntry (infer_schema strFn records cap) prop = some e) :
    e.nullable = true ↔ (nonNullStream records prop).length < records.length := by
  rw [lookupEntry_some_elim strFn records cap prop e hwf he]
  simp [inferEntry, nonNullStream]

/-- Witness for C1: a two-record batch where property `x` occurs in one
record only; its schema entry is nullable and 1 < 2. -/
theorem nullable_iff_nonnull_lt_total_witness :
    KeysNodup [[("path", .vstr "a.md"), ("x", .vint 1)], [("path", .vstr "b.md")]] ∧
    lookupEntry
      (infer_schema (fun _ => "") [[("path", .vstr "a.md"), ("x", .vint 1)],
        [("path", .vstr "b.md")]] 5) "x" =
      some ⟨"integer", 1, true, [.vint 1]⟩ ∧
    ((SchemaEntry.mk "integer" 1 true [.vint 1]).nullable = true ↔
      (nonNullStream [[("path", .vstr "a.md"), ("x", .vint 1)],
        [("path", .vstr "b.md")]] "x").length <
        ([[("path", .vstr "a.md"), ("x", .vint 1)],
          [("path", .vstr "b.md")]] : List Record).length) := by
  refine ⟨?_, ?_, ?_⟩
  · unfold KeysNodup
    decide
  · rfl
  · exact nullable_iff_nonnull_lt_total (fun _ => "")
      [[("path", .vstr "a.md"), ("x", .vint 1)], [("path", .vstr "b.md")]]
      5 "x" ⟨"integer", 1, true, [.vint 1]⟩
      (by unfold KeysNodup; decide) rfl

/-- C2: for every batch and every property in the inferred schema, the
entry's type tag is `infer_type` of the first non-null value of the
property in record order, and `"null"` when no non-null value exists. -/
theorem type_from_first_nonnull (strFn : Value → String)
    (records : List Record) (cap : Nat) (prop : String) (e : SchemaEntry)
    (hwf : KeysNodup records)
    (he : lookupEntry (infer_schema strFn records cap) prop = some e) :
    e.type = match (propStream records prop).find? (fun v => !v.isNull) with
      | none => "null"
      | some v => infer_type v := by
  rw [lookupEntry_some_elim strFn records cap prop e hwf he,
    find?_eq_head_of_filter]
  show (match (propStream records prop).filter (fun v => !v.isNull) with
      | [] => "null"
      | v :: _ => infer_type v) = _
  cases (propStream records prop).filter (fun v => !v.isNull) <;> rfl

/-- Witness for C2: property `y` is null in the first record and an
integer in the second; the inferred type is `"integer"`. -/
theorem type_from_first_nonnull_witness :
    KeysNodup [[("path", .vstr "a.md"), ("y", .vnull)],
      [("path", .vstr "b.md"), ("y", .vint 2)]] ∧
    lookupEntry
      (infer_schema (fun _ => "") [[("path", .vstr "a.md"), ("y", .vnull)],
        [("path", .vstr "b.md"), ("y", .vint 2)]] 5) "y" =
      some ⟨"integer", 1, true, [.vint 2]⟩ ∧
    (SchemaEntry.mk "integer" 1 true [.vint 2]).type =
      (match (propStream [[("path", .vstr "a.md"), ("y", .vnull)],
          [("path", .vstr "b.md"), ("y", .vint 2)]] "y").find?
          (fun v => !v.isNull) with
        | none => "null"
        | some v => infer_type v) := by
  refine ⟨?_, ?_, ?_⟩
  · unfold KeysNodup
    decide
  · rfl
  · exact type_from_first_nonnull (fun _ => "")
      [[("path", .vstr "a.md"), ("y", .vnull)],
        [("path", .vstr "b.md"), ("y", .vint 2)]]
      5 "y" ⟨"integer", 1, true, [.vint 2]⟩
      (by unfold KeysNodup; decide) rfl

theorem foldl_sampleStep_eq (strFn : Value → String) (cap : Nat) :
    ∀ (vs : List Value) (seen : List String) (samples : List Value),
      samples.length ≤ cap →
      (vs.foldl (sampleStep strFn cap) (seen, samples)).2 =
        samples ++ (firstDistinct strFn seen vs).take (cap - samples.length) := by
  intro vs
  induction vs with
  | nil => intro seen samples _; simp [firstDistinct]
  | cons v vs ih =>
      intro seen samples hle
      by_cases hseen : seen.contains (strFn v)
      · have hmem : strFn v ∈ seen := by simpa using hseen
        have hstep : sampleStep strFn cap (seen, samples) v = (seen, samples) := by
          simp [sampleStep, hmem]
        simp only [List.foldl_cons, hstep, firstDistinct, hseen, if_true]
        exact ih seen samples hle
      · have hsb : seen.contains (strFn v) = false := by simpa using hseen
        have hnotmem : strFn v ∉ seen := by simpa using hseen
        by_cases hlen : samples.length < cap
        · have hstep : sampleStep strFn cap (seen, samples) v =
              (strFn v :: seen, samples ++ [v]) := by
            simp [sampleStep, hnotmem, hlen]
          simp only [List.foldl_cons, hstep, firstDistinct, hsb,
            Bool.false_eq_true, if_false]
          rw [ih (strFn v :: seen) (samples ++ [v]) (by simpa using hlen)]
          have hcap : cap - samples.length = (cap - (samples ++ [v]).length) + 1 := by
            simp only [List.length_append, List.length_singleton]
            omega
          rw [hcap, List.take_succ_cons, List.append_assoc]
          rfl
        · have heq : samples.length = cap := by omega
          have hstep : sampleStep strFn cap (seen, samples) v = (seen, samples) := by
            simp [sampleStep, hsb, hlen]
          simp only [List.foldl_cons, hstep, firstDistinct, hsb,
            Bool.false_eq_true, if_false]
          rw [ih seen samples hle, heq]
          simp

theorem collectSamples_eq_take (strFn : Value → String) (cap : Nat)
    (vs : List Value) :
    collectSamples strFn cap vs = (firstDistinct strFn [] vs).take cap := by
  unfold collectSamples
  rw [foldl_sampleStep_eq strFn cap vs [] [] (Nat.zero_le cap)]
  simp

theorem firstDistinct_map_nodup (strFn : Value → String) :
    ∀ (vs : List Value) (seen : List String),
      ((firstDistinct strFn seen vs).map strFn).Nodup ∧
      ∀ s ∈ (firstDistinct strFn seen vs).map strFn, s ∉ seen := by
  intro vs
  induction vs with
  | nil => intro seen; simp [firstDistinct]
  | cons v vs ih =>
      intro seen
      by_cases hseen : seen.contains (strFn v)
      · simp only [firstDistinct, hseen, if_true]
        exact ih seen
      · have hsb : seen.contains (strFn v) = false := by simpa using hseen
        have hnotmem : strFn v ∉ seen := by simpa using hseen
        simp only [firstDistinct, hsb, Bool.false_eq_true, if_false,
          List.map_cons, List.nodup_cons]
        obtain ⟨hnd, hfresh⟩ := ih (strFn v :: seen)
        refine ⟨⟨?_, hnd⟩, ?_⟩
        · intro hin
          exact (hfresh (strFn v) hin) (List.mem_cons_self _ _)
        · intro s hs
          rcases List.mem_cons.mp hs with hs | hs
          · exact hs ▸ hnotmem
          · intro hmem
            exact (hfresh s hs) (List.mem_cons_of_mem _ hmem)

/-- C4: for every batch (of dict records) and property in the schema, the
sample values are the first occurrences of each distinct (by textual
representation) non-null value in record order truncated at the cap, are
pairwise distinct by textual representation, number at most the cap, and
the non-null count still counts every occurrence, beyond the cap
included. -/
theorem sample_values_characterization (strFn : Value → String)
    (records : List Record) (cap : Nat) (prop : String) (e : SchemaEntry)
    (hwf : KeysNodup records)
    (he : lookupEntry (infer_schema strFn records cap) prop = some e) :
    e.sample_values =
        (firstDistinct strFn [] (nonNullStream records prop)).take cap ∧
      (e.sample_values.map strFn).Nodup ∧
      e.sample_values.length ≤ cap ∧
      e.count = (nonNullStream records prop).length := by
  rw [lookupEntry_some_elim strFn records cap prop e hwf he]
  have hsv : (inferEntry strFn records.length cap
      (propStream records prop)).sample_values =
      (firstDistinct strFn [] (nonNullStream records prop)).take cap := by
    show collectSamples strFn cap
        ((propStream records prop).filter (fun v => !v.isNull)) = _
    rw [collectSamples_eq_take]
    rfl
  refine ⟨hsv, ?_, ?_, rfl⟩
  · rw [hsv, List.map_take]
    exact List.Nodup.sublist (List.take_sublist _ _)
      (firstDistinct_map_nodup strFn (nonNullStream records prop) []).1
  · rw [hsv]
    simp

/-- Witness for C4: three records where `x` is `1, 1, 2` and the cap is
`1`: the samples are exactly `[1]` (distinct, capped), while the count is
`3`. -/
theorem sample_values_characterization_witness :
    KeysNodup [[("path", .vstr "a"), ("x", .vint 1)],
      [("path", .vstr "b"), ("x", .vint 1)],
      [("path", .vstr "c"), ("x", .vint 2)]] ∧
    lookupEntry
      (infer_schema (fun v => match v with | .vint 1 => "one" | _ => "other")
        [[("path", .vstr "a"), ("x", .vint 1)],
          [("path", .vstr "b"), ("x", .vint 1)],
          [("path", .vstr "c"), ("x", .vint 2)]] 1) "x" =
      some ⟨"integer", 3, false, [.vint 1]⟩ ∧
    ((SchemaEntry.mk "integer" 3 false [.vint 1]).sample_values =
        (firstDistinct (fun v => match v with | .vint 1 => "one" | _ => "other")
          [] (nonNullStream [[("path", .vstr "a"), ("x", .vint 1)],
            [("path", .vstr "b"), ("x", .vint 1)],
            [("path", .vstr "c"), ("x", .vint 2)]] "x")).take 1 ∧
      ((SchemaEntry.mk "integer" 3 false [.vint 1]).sample_values.map
        (fun v => match v with | .vint 1 => "one" | _ => "other")).Nodup ∧
      (SchemaEntry.mk "integer" 3 false [.vint 1]).sample_values.length ≤ 1 ∧
      (SchemaEntry.mk "integer" 3 false [.vint 1]).count =
        (nonNullStream [[("path", .vstr "a"), ("x", .vint 1)],
          [("path", .vstr "b"), ("x", .vint 1)],
          [("path", .vstr "c"), ("x", .vint 2)]] "x").length) := by
  refine ⟨?_, ?_, ?_⟩
  · unfold KeysNodup
    decide
  · rfl
  · exact sample_values_characterization
      (fun v => match v with | .vint 1 => "one" | _ => "other")
      [[("path", .vstr "a"), ("x", .vint 1)],
        [("path", .vstr "b"), ("x", .vint 1)],
        [("path", .vstr "c"), ("x", .vint 2)]] 1 "x"
      ⟨"integer", 3, false, [.vint 1]⟩
      (by unfold KeysNodup; decide) rfl

/-- C10: the inferred schema never contains an entry for the reserved
key `"path"`: even a frontmatter property literally named `path` is
silently excluded from the schema. -/
theorem schema_never_contains_path (strFn : Value → String)
    (records : List Record) (cap : Nat) :
    lookupEntry (infer_schema strFn records cap) "path" = none :=
  infer_schema_path_none strFn records cap

/-- C3 counterexample: the empty sequence vacuously has every element a
string, yet `infer_type` classifies it as plain `"array"`, not
`"array<string>"` (the source guards the all-strings branch with the
truthiness of the list, which excludes the empty list). -/
theorem infer_type_empty_list_cex :
    (∀ v ∈ ([] : List Value), Value.isStr v = true) ∧
    infer_type (Value.vlist []) = "array" ∧
    infer_type (Value.vlist []) ≠ "array<string>" := by
  refine ⟨by simp, rfl, by decide⟩

/-- C3 (amended): `infer_type` classifies each constructor by the spec's
priority order; a *non-empty* sequence in which every element is a string
is tagged `"array<string>"`, and any other sequence — the empty sequence
included — is tagged `"array"`. -/
theorem infer_type_priority (l : List Value) :
    infer_type Value.vnull = "null" ∧
    (∀ b, infer_type (Value.vbool b) = "boolean") ∧
    (∀ n, infer_type (Value.vint n) = "integer") ∧
    (∀ s, infer_type (Value.vfloat s) = "double") ∧
    (∀ y m d, infer_type (Value.vdate y m d) = "date") ∧
    (∀ y m d hh mm ss, infer_type (Value.vdatetime y m d hh mm ss) = "timestamp") ∧
    (l ≠ [] → (∀ v ∈ l, Value.isStr v = true) →
      infer_type (Value.vlist l) = "array<string>") ∧
    ((l = [] ∨ ∃ v ∈ l, Value.isStr v = false) →
      infer_type (Value.vlist l) = "array") ∧
    (∀ s, infer_type (Value.vstr s) = "string") ∧
    (∀ d, infer_type (Value.vdict d) = "json") := by
  refine ⟨rfl, fun _ => rfl, fun _ => rfl, fun _ => rfl,
    fun _ _ _ => rfl, fun _ _ _ _ _ _ => rfl, ?_, ?_, fun _ => rfl,
    fun _ => rfl⟩
  · intro hne hall
    have h1 : l.isEmpty = false := by
      cases l with
      | nil => exact absurd rfl hne
      | cons a l => rfl
    have h2 : l.all Value.isStr = true := List.all_eq_true.mpr hall
    simp [infer_type, h1, h2]
  · intro h
    rcases h with h | ⟨v, hv, hs⟩
    · subst h; rfl
    · have h2 : l.all Value.isStr = false := by
        rw [← Bool.not_eq_true, List.all_eq_true]
        intro hall
        rw [hall v hv] at hs
        exact absurd hs (by decide)
      simp [infer_type, h2]

/-- Witness for C3 (amended): a one-string list is `"array<string>"`, a
one-integer list is `"array"`. -/
theorem infer_type_priority_witness :
    infer_type (Value.vlist [Value.vstr "a"]) = "array<string>" ∧
    infer_type (Value.vlist [Value.vint 1]) = "array" := by
  constructor
  · exact (infer_type_priority [Value.vstr "a"]).2.2.2.2.2.2.1
      (List.cons_ne_nil _ _)
      (by intro v hv; rw [List.mem_singleton] at hv; subst hv; rfl)
  · exact (infer_type_priority [Value.vint 1]).2.2.2.2.2.2.2.1
      (Or.inr ⟨Value.vint 1, List.mem_singleton.mpr rfl, rfl⟩)

theorem parse_files_go_spec (load : FsPath → Except String Record)
    (base_dir : FsPath) :
    ∀ (paths : List FsPath) (records : List Record)
      (warnings : List FailureReport),
      (∀ p ∈ paths, (relative_to p base_dir).isSome) →
      parse_files_go load base_dir paths records warnings =
        Except.ok
          (records ++ paths.filterMap
            (fun p => (parse_file load p base_dir).toOption),
           warnings ++ paths.filterMap (reportFor load base_dir)) := by
  intro paths
  induction paths with
  | nil => intro records warnings _; simp [parse_files_go]
  | cons path rest ih =>
      intro records warnings h
      have hrest : ∀ p ∈ rest, (relative_to p base_dir).isSome :=
        fun p hp => h p (List.mem_cons_of_mem path hp)
      obtain ⟨rel, hrel⟩ := Option.isSome_iff_exists.mp
        (h path (List.mem_cons_self path rest))
      cases hpf : parse_file load path base_dir with
      | ok record =>
          simp only [parse_files_go, hpf]
          rw [ih (records ++ [record]) warnings hrest]
          simp [List.filterMap_cons, hpf, Except.toOption, reportFor, hrel]
      | error e =>
          simp only [parse_files_go, hpf, hrel]
          rw [ih _ _ hrest]
          simp [List.filterMap_cons, hpf, Except.toOption, reportFor, hrel]

/-- C5 counterexample: a readable file whose path is *not* under the base
directory makes `parse_files` itself raise: the failure handler
re-evaluates `path.relative_to(base_dir)`, whose `ValueError` escapes the
call — so a single file's failure is not always isolated. -/
theorem parse_files_escape_cex :
    parse_files (fun _ => Except.ok []) [["other", "f.md"]] ["base"] =
      Except.error subpathErr := rfl

/-- C5 (amended): when the base directory is an ancestor of every input
path, `parse_files` returns normally, with the successfully parsed
records in input order and the failure reports — each the relative path
paired with the error string — in input order; no exception escapes. -/
theorem parse_files_partition (load : FsPath → Except String Record)
    (paths : List FsPath) (base_dir : FsPath)
    (h : ∀ p ∈ paths, (relative_to p base_dir).isSome) :
    parse_files load paths base_dir =
      Except.ok
        (paths.filterMap (fun p => (parse_file load p base_dir).toOption),
         paths.filterMap (reportFor load base_dir)) := by
  unfold parse_files
  rw [parse_files_go_spec load base_dir paths [] [] h]
  simp

/-- Witness for C5 (amended): batch [valid A, invalid B, valid C] under
base `["base"]` yields records [A, C] and the single report for B. -/
theorem parse_files_partition_witness :
    (∀ p ∈ [["base", "a.md"], ["base", "b.md"], ["base", "c.md"]],
      (relative_to p (["base"] : FsPath)).isSome) ∧
    parse_files
      (fun p => if p = ["base", "b.md"] then Except.error "boom"
        else Except.ok [("t", Value.vint 1)])
      [["base", "a.md"], ["base", "b.md"], ["base", "c.md"]] ["base"] =
      Except.ok
        ([["base", "a.md"], ["base", "b.md"], ["base", "c.md"]].filterMap
          (fun p => (parse_file
            (fun p => if p = ["base", "b.md"] then Except.error "boom"
              else Except.ok [("t", Value.vint 1)]) p ["base"]).toOption),
         [["base", "a.md"], ["base", "b.md"], ["base", "c.md"]].filterMap
          (reportFor
            (fun p => if p = ["base", "b.md"] then Except.error "boom"
              else Except.ok [("t", Value.vint 1)]) ["base"])) := by
  constructor
  · decide
  · exact parse_files_partition
      (fun p => if p = ["base", "b.md"] then Except.error "boom"
        else Except.ok [("t", Value.vint 1)])
      [["base", "a.md"], ["base", "b.md"], ["base", "c.md"]] ["base"]
      (by decide)

theorem dictUpdate_fresh :
    ∀ (upd d : List (String × Value)),
      (upd.map Prod.fst).Nodup →
      (∀ kv ∈ upd, ∀ kv' ∈ d, kv.1 ≠ kv'.1) →
      dictUpdate d upd = d ++ upd := by
  intro upd
  induction upd with
  | nil => intro d _ _; simp [dictUpdate]
  | cons kv rest ih =>
      intro d hnodup hfresh
      obtain ⟨k, v⟩ := kv
      have hany : d.any (fun p => p.1 == k) = false := by
        rw [← Bool.not_eq_true, List.any_eq_true]
        rintro ⟨p, hp, hpk⟩
        exact hfresh (k, v) (List.mem_cons_self _ _) p hp
          (beq_iff_eq.mp hpk).symm
      have hset : dictSet d k v = d ++ [(k, v)] := by
        simp [dictSet, hany]
      simp only [List.map_cons, List.nodup_cons] at hnodup
      obtain ⟨hknotin, hnd⟩ := hnodup
      show dictUpdate (dictSet d k v) rest = d ++ (k, v) :: rest
      rw [hset, ih (d ++ [(k, v)]) hnd ?_, List.append_assoc]
      · rfl
      · intro kv' hkv' p hp
        rcases List.mem_append.mp hp with hp | hp
        · exact hfresh kv' (List.mem_cons_of_mem _ hkv') p hp
        · rw [List.mem_singleton] at hp
          subst hp
          intro he
          have hmem : kv'.1 ∈ rest.map Prod.fst :=
            List.mem_map_of_mem Prod.fst hkv'
          rw [he] at hmem
          exact hknotin hmem

/-- C6 counterexample: a file whose frontmatter itself defines a `path`
property: `result.update(post.metadata)` overwrites the reserved entry,
so the record's `path` value is the frontmatter value `"custom"`, not the
file's relative path `"a.md"`. -/
theorem parse_file_path_overwritten_cex :
    parse_file (fun _ => Except.ok [("path", Value.vstr "custom")])
      ["base", "a.md"] ["base"] =
      Except.ok [("path", Value.vstr "custom")] ∧
    relative_to ["base", "a.md"] ["base"] = some ["a.md"] ∧
    lookupVal [("path", Value.vstr "custom")] "path" =
      some (Value.vstr "custom") ∧
    Value.vstr "custom" ≠ Value.vstr (pathStr ["a.md"]) := by
  refine ⟨rfl, rfl, rfl, ?_⟩
  intro h
  exact absurd (Value.vstr.inj h) (by decide)

/-- C6 (amended): for a successfully loaded file whose metadata does not
itself contain a `path` key, the record holds the reserved `path` key
with the file's relative path, in front of the metadata items; with empty
(or absent) metadata the record is exactly the reserved entry. -/
theorem parse_file_reserved_path (load : FsPath → Except String Record)
    (path base_dir : FsPath) (post : Record) (rel : FsPath)
    (hload : load path = Except.ok post)
    (hrel : relative_to path base_dir = some rel)
    (hnodup : (post.map Prod.fst).Nodup)
    (hnopath : ∀ kv ∈ post, kv.1 ≠ "path") :
    parse_file load path base_dir =
      Except.ok (("path", Value.vstr (pathStr rel)) :: post) ∧
    lookupVal (("path", Value.vstr (pathStr rel)) :: post) "path" =
      some (Value.vstr (pathStr rel)) ∧
    (post = [] →
      parse_file load path base_dir =
        Except.ok [("path", Value.vstr (pathStr rel))]) := by
  have hupd : dictUpdate [("path", Value.vstr (pathStr rel))] post =
      ("path", Value.vstr (pathStr rel)) :: post := by
    rw [dictUpdate_fresh post [("path", Value.vstr (pathStr rel))] hnodup ?_]
    · rfl
    · intro kv hkv p hp
      rw [List.mem_singleton] at hp
      subst hp
      exact hnopath kv hkv
  have hpf : parse_file load path base_dir =
      Except.ok (("path", Value.vstr (pathStr rel)) :: post) := by
    unfold parse_file
    rw [hload]
    show (match relative_to path base_dir with
      | none => Except.error subpathErr
      | some rel => Except.ok
          (dictUpdate [("path", Value.vstr (pathStr rel))] post)) = _
    rw [hrel]
    show Except.ok (dictUpdate [("path", Value.vstr (pathStr rel))] post) = _
    rw [hupd]
  refine ⟨hpf, ?_, ?_⟩
  · simp [lookupVal, List.find?]
  · intro h
    subst h
    exact hpf

/-- Witness for C6 (amended): a file with one non-`path` metadata key,
and the same file with empty metadata. -/
theorem parse_file_reserved_path_witness :
    ((fun _ : FsPath =>
        (Except.ok [("t", Value.vint 7)] : Except String Record))
      ["base", "a.md"] = Except.ok [("t", Value.vint 7)]) ∧
    relative_to ["base", "a.md"] ["base"] = some ["a.md"] ∧
    parse_file (fun _ => Except.ok [("t", Value.vint 7)])
      ["base", "a.md"] ["base"] =
      Except.ok [("path", Value.vstr (pathStr ["a.md"])), ("t", Value.vint 7)] ∧
    parse_file (fun _ => Except.ok []) ["base", "a.md"] ["base"] =
      Except.ok [("path", Value.vstr (pathStr ["a.md"]))] := by
  refine ⟨rfl, rfl, ?_, ?_⟩
  · exact (parse_file_reserved_path (fun _ => Except.ok [("t", Value.vint 7)])
      ["base", "a.md"] ["base"] [("t", Value.vint 7)] ["a.md"] rfl rfl
      (by decide)
      (by intro kv hkv; rw [List.mem_singleton] at hkv; subst hkv; decide)).1
  · exact (parse_file_reserved_path (fun _ => Except.ok [])
      ["base", "a.md"] ["base"] [] ["a.md"] rfl rfl (by decide)
      (by intro kv hkv; exact absurd hkv (List.not_mem_nil kv))).2.2 rfl

theorem foldl_columnsStep (records : List Record) :
    ∀ cols : List (String × List Value),
      records.foldl columnsStep cols =
        cols.map (fun p => (p.1, p.2 ++ records.map (fun r => getOrNull r p.1))) := by
  induction records with
  | nil => intro cols; simp
  | cons r rs ih =>
      intro cols
      simp only [List.foldl_cons]
      rw [ih (columnsStep cols r)]
      simp [columnsStep, Function.comp]

theorem columns_data_eq (records : List Record) :
    columns_data records =
      (allKeys records).map
        (fun k => (k, records.map (fun r => getOrNull r k))) := by
  unfold columns_data
  rw [foldl_columnsStep]
  simp

theorem mem_keysUnion (records : List Record) (k : String) :
    k ∈ keysUnion records ↔ ∃ r ∈ records, k ∈ r.map Prod.fst := by
  induction records with
  | nil => simp [keysUnion]
  | cons r rs ih => simp [keysUnion, ih]

/-- C7: for every non-empty batch, the columnar table has exactly one
column per property name occurring in some record (the union of all
records' keys, the reserved path key included when present), and every
column is the batch-length sequence of that property's values with
Python `None` (null) substituted for the records lacking the key. -/
theorem columns_data_rectangular (records : List Record)
    (_hne : records ≠ []) :
    (∀ k, (∃ col, (k, col) ∈ columns_data records) ↔
      ∃ r ∈ records, k ∈ r.map Prod.fst) ∧
    (∀ k col, (k, col) ∈ columns_data records →
      col = records.map (fun r => getOrNull r k) ∧
      col.length = records.length) := by
  constructor
  · intro k
    rw [columns_data_eq]
    constructor
    · rintro ⟨col, hcol⟩
      rw [List.mem_map] at hcol
      obtain ⟨k', hk', heq⟩ := hcol
      rw [show k' = k from congrArg Prod.fst heq] at hk'
      exact (mem_keysUnion records k).mp (List.mem_dedup.mp hk')
    · intro h
      refine ⟨records.map (fun r => getOrNull r k), ?_⟩
      rw [List.mem_map]
      exact ⟨k, List.mem_dedup.mpr ((mem_keysUnion records k).mpr h), rfl⟩
  · intro k col hcol
    rw [columns_data_eq, List.mem_map] at hcol
    obtain ⟨k', _, heq⟩ := hcol
    have hk : k' = k := congrArg Prod.fst heq
    subst hk
    have hcol' : col = records.map (fun r => getOrNull r k') :=
      (congrArg Prod.snd heq).symm
    exact ⟨hcol', by rw [hcol', List.length_map]⟩

/-- Witness for C7: the spec's own example batch
`[{path: "a", x: 1}, {path: "b"}]`: column `x` is `[1, null]`. -/
theorem columns_data_rectangular_witness :
    (([[("path", Value.vstr "a"), ("x", Value.vint 1)],
        [("path", Value.vstr "b")]] : List Record) ≠ []) ∧
    ((Value.vint 1 : Value) = getOrNull [("path", Value.vstr "a"), ("x", Value.vint 1)] "x") ∧
    ((Value.vnull : Value) = getOrNull [("path", Value.vstr "b")] "x") ∧
    (∀ col, ("x", col) ∈ columns_data [[("path", Value.vstr "a"), ("x", Value.vint 1)],
        [("path", Value.vstr "b")]] →
      col = [Value.vint 1, Value.vnull] ∧ col.length = 2) := by
  refine ⟨by simp, rfl, rfl, ?_⟩
  intro col hcol
  exact (columns_data_rectangular
    [[("path", Value.vstr "a"), ("x", Value.vint 1)],
      [("path", Value.vstr "b")]] (by simp)).2 "x" col hcol

/-- C8: on the empty batch, `execute_query` returns the degenerate
result — no rows, zero row count, no columns — for every engine and
every query string, so the underlying relational engine is never
consulted. -/
theorem execute_query_empty (engine : Engine) (sql : String) :
    execute_query engine [] sql =
      Except.ok ⟨[], 0, []⟩ ∧
    (∀ engine' : Engine, ∀ sql' : String,
      execute_query engine [] sql = execute_query engine' [] sql') := by
  exact ⟨rfl, fun _ _ => rfl⟩

/-- C9: for both the inspect and the query tool, the response carries a
`warnings` field iff the Batch Parser's failure list is non-empty, and
then the field is exactly that list. -/
theorem warnings_present_iff_failures (strFn : Value → String)
    (engine : Engine) (load : FsPath → Except String Record)
    (paths : List FsPath) (base_dir : FsPath) (sql : String)
    (records : List Record) (warns : List FailureReport)
    (resp : InspectResponse) (qresp : QueryResponse)
    (hp : parse_files load paths base_dir = Except.ok (records, warns))
    (hi : inspect_tool strFn load paths base_dir = Except.ok resp)
    (hq : query_tool engine load paths base_dir sql = Except.ok qresp) :
    ((resp.warnings ≠ none ↔ warns ≠ []) ∧
      (warns ≠ [] → resp.warnings = some warns)) ∧
    ((qresp.warnings ≠ none ↔ warns ≠ []) ∧
      (warns ≠ [] → qresp.warnings = some warns)) := by
  unfold inspect_tool at hi
  unfold query_tool at hq
  rw [hp] at hi hq
  simp only [Except.ok.injEq] at hi
  simp only [] at hq
  constructor
  · rw [← hi]
    cases warns <;> simp
  · cases hqr : execute_query engine records sql with
    | error e =>
        rw [hqr] at hq
        exact absurd hq (by simp)
    | ok qr =>
        rw [hqr] at hq
        simp only [Except.ok.injEq] at hq
        rw [← hq]
        cases warns <;> simp

/-- Witness for C9: a batch with one good and one failing file; both
tool responses carry the (non-empty) failure list as `warnings`. -/
theorem warnings_present_iff_failures_witness :
    parse_files
      (fun p => if p = ["b", "bad.md"] then Except.error "boom"
        else Except.ok [("x", Value.vint 1)])
      [["b", "a.md"], ["b", "bad.md"]] ["b"] =
      Except.ok ([[("path", Value.vstr "a.md"), ("x", Value.vint 1)]],
        [⟨"bad.md", "boom"⟩]) ∧
    inspect_tool (fun _ => "")
      (fun p => if p = ["b", "bad.md"] then Except.error "boom"
        else Except.ok [("x", Value.vint 1)])
      [["b", "a.md"], ["b", "bad.md"]] ["b"] =
      Except.ok
        { file_count := 1
          schema := [("x", ⟨"integer", 1, false, [Value.vint 1]⟩)]
          warnings := some [⟨"bad.md", "boom"⟩] } ∧
    query_tool (fun _ _ => Except.ok (["c"], [[Value.vint 1]]))
      (fun p => if p = ["b", "bad.md"] then Except.error "boom"
        else Except.ok [("x", Value.vint 1)])
      [["b", "a.md"], ["b", "bad.md"]] ["b"] "select" =
      Except.ok
        { results := [[("c", Value.vint 1)]]
          row_count := 1
          columns := ["c"]
          warnings := some [⟨"bad.md", "boom"⟩] } ∧
    ((((InspectResponse.mk 1 [("x", ⟨"integer", 1, false, [Value.vint 1]⟩)]
          (some [⟨"bad.md", "boom"⟩])).warnings ≠ none ↔
        ([⟨"bad.md", "boom"⟩] : List FailureReport) ≠ []) ∧
      (([⟨"bad.md", "boom"⟩] : List FailureReport) ≠ [] →
        (InspectResponse.mk 1 [("x", ⟨"integer", 1, false, [Value.vint 1]⟩)]
          (some [⟨"bad.md", "boom"⟩])).warnings =
          some [⟨"bad.md", "boom"⟩])) ∧
     (((QueryResponse.mk [[("c", Value.vint 1)]] 1 ["c"]
          (some [⟨"bad.md", "boom"⟩])).warnings ≠ none ↔
        ([⟨"bad.md", "boom"⟩] : List FailureReport) ≠ []) ∧
      (([⟨"bad.md", "boom"⟩] : List FailureReport) ≠ [] →
        (QueryResponse.mk [[("c", Value.vint 1)]] 1 ["c"]
          (some [⟨"bad.md", "boom"⟩])).warnings =
          some [⟨"bad.md", "boom"⟩]))) := by
  refine ⟨rfl, rfl, rfl, ?_⟩
  exact warnings_present_iff_failures (fun _ => "")
    (fun _ _ => Except.ok (["c"], [[Value.vint 1]]))
    (fun p => if p = ["b", "bad.md"] then Except.error "boom"
      else Except.ok [("x", Value.vint 1)])
    [["b", "a.md"], ["b", "bad.md"]] ["b"] "select"
    [[("path", Value.vstr "a.md"), ("x", Value.vint 1)]]
    [⟨"bad.md", "boom"⟩]
    ⟨1, [("x", ⟨"integer", 1, false, [Value.vint 1]⟩)],
      some [⟨"bad.md", "boom"⟩]⟩
    ⟨[[("c", Value.vint 1)]], 1, ["c"], some [⟨"bad.md", "boom"⟩]⟩
    rfl rfl rfl
